import Mathlib

/-
Shallow embedding of the CHIP-8 interpreter core (src/chip8_core/src/lib.rs).

Machine integers are modelled as `Nat` with explicit `% 2^w` where the Rust
code wraps; Rust panics (out-of-bounds array indexing, stack pointer
underflow, `unimplemented!`) are modelled as `Except.error` outcomes with one
distinct `Fault` constructor per panic site.  Fixed-size Rust arrays are
modelled as total functions `Nat → _` whose reads and writes go through
bounds-checked helpers exactly where the Rust index expression can be out of
range.
-/

namespace Chip8

/-- Constants from the source: screen is 64 x 32, RAM is 4096 bytes,
stack depth 16, 16 keys, 16 V registers, programs load at 0x200. -/
def SCREEN_WIDTH : Nat := 64

def SCREEN_HEIGHT : Nat := 32

def RAM_SIZE : Nat := 4096

def STACK_SIZE : Nat := 16

def NUM_KEYS : Nat := 16

def START_ADDR : Nat := 0x200

def NUM_REGS : Nat := 16

def FONTSET_SIZE : Nat := 80

/-- The 80-byte font table `FONTSET` from the source. -/
def FONTSET : List Nat :=
  [0xF0, 0x90, 0x90, 0x90, 0xF0,
   0x20, 0x60, 0x20, 0x20, 0x70,
   0xF0, 0x10, 0xF0, 0x80, 0xF0,
   0xF0, 0x10, 0xF0, 0x10, 0xF0,
   0x90, 0x90, 0xF0, 0x10, 0x10,
   0xF0, 0x80, 0xF0, 0x10, 0xF0,
   0xF0, 0x80, 0xF0, 0x90, 0xF0,
   0xF0, 0x10, 0x20, 0x40, 0x40,
   0xF0, 0x90, 0xF0, 0x90, 0xF0,
   0xF0, 0x90, 0xF0, 0x10, 0xF0,
   0xF0, 0x90, 0xF0, 0x90, 0x90,
   0xE0, 0x90, 0xE0, 0x90, 0xE0,
   0xF0, 0x80, 0x80, 0x80, 0xF0,
   0xE0, 0x90, 0x90, 0x90, 0xE0,
   0xF0, 0x80, 0xF0, 0x80, 0xF0,
   0xF0, 0x80, 0xF0, 0x80, 0x80]

/-- One distinct fault per Rust panic site: `unimplemented!` on an opcode
matching no arm, `self.stack[self.sp]` with `sp` at capacity,
`self.sp -= 1` at zero, a RAM index ≥ 4096, and a key index ≥ 16. -/
inductive Fault where
  | badOpcode (op : Nat)
  | stackOverflow
  | stackUnderflow
  | ramIndex
  | keyIndex
  deriving DecidableEq, Repr

/-- Pointwise update of a function-modelled array. -/
def upd {α : Type} (f : Nat → α) (i : Nat) (v : α) : Nat → α :=
  fun j => if j = i then v else f j

@[simp] theorem upd_same {α : Type} (f : Nat → α) (i : Nat) (v : α) :
    upd f i v i = v := by
  simp [upd]

@[simp] theorem upd_ne {α : Type} (f : Nat → α) (i : Nat) (v : α) (j : Nat)
    (h : j ≠ i) : upd f i v j = f j := by
  simp [upd, h]

/-- The `Emu` struct from the source. -/
structure Emu where
  pc : Nat
  ram : Nat → Nat
  screen : Nat → Bool
  v_reg : Nat → Nat
  i_reg : Nat
  sp : Nat
  stack : Nat → Nat
  keys : Nat → Bool
  dt : Nat
  st : Nat

/-- Helper modelling `ram[start..start + data.len()].copy_from_slice(data)`. -/
def copyInto (ram : Nat → Nat) (start : Nat) (data : List Nat) : Nat → Nat :=
  fun i => if start ≤ i ∧ i < start + data.length then data.getD (i - start) 0 else ram i

/-- `Emu::new()`: zeroed state, `pc` at `START_ADDR`, font copied to the
start of RAM. -/
def Emu.new : Emu where
  pc := START_ADDR
  ram := copyInto (fun _ => 0) 0 FONTSET
  screen := fun _ => false
  v_reg := fun _ => 0
  i_reg := 0
  sp := 0
  stack := fun _ => 0
  keys := fun _ => false
  dt := 0
  st := 0

/-- Checked RAM read: `self.ram[addr]` panics when `addr ≥ RAM_SIZE`. -/
def Emu.ramRead (s : Emu) (addr : Nat) : Except Fault Nat :=
  if addr < RAM_SIZE then .ok (s.ram addr) else .error .ramIndex

/-- Checked RAM write: `self.ram[addr] = v` panics when `addr ≥ RAM_SIZE`. -/
def Emu.ramWrite (s : Emu) (addr v : Nat) : Except Fault Emu :=
  if addr < RAM_SIZE then .ok { s with ram := upd s.ram addr v } else .error .ramIndex

/-- Checked key read: `self.keys[i]` panics when `i ≥ NUM_KEYS`. -/
def Emu.keyRead (s : Emu) (i : Nat) : Except Fault Bool :=
  if i < NUM_KEYS then .ok (s.keys i) else .error .keyIndex

/-- `Emu::push`: `self.stack[self.sp] = val; self.sp += 1` — the indexing
panics when `sp` is already at `STACK_SIZE`. -/
def Emu.push (s : Emu) (val : Nat) : Except Fault Emu :=
  if s.sp < STACK_SIZE then
    .ok { s with stack := upd s.stack s.sp val, sp := s.sp + 1 }
  else .error .stackOverflow

/-- `Emu::pop`: `self.sp -= 1; self.stack[self.sp]` — the decrement of the
unsigned `sp` panics when `sp` is zero. -/
def Emu.pop (s : Emu) : Except Fault (Nat × Emu) :=
  if s.sp = 0 then .error .stackUnderflow
  else .ok (s.stack (s.sp - 1), { s with sp := s.sp - 1 })

/-- `Emu::load`: copies the program bytes into RAM starting at `START_ADDR`;
the slice `ram[start..end]` panics when `end > RAM_SIZE`. -/
def Emu.load (s : Emu) (data : List Nat) : Except Fault Emu :=
  if START_ADDR + data.length ≤ RAM_SIZE then
    .ok { s with ram := copyInto s.ram START_ADDR data }
  else .error .ramIndex

/-- `Emu::tick_timers`: decrement each timer when it is positive. -/
def Emu.tick_timers (s : Emu) : Emu :=
  { s with
    dt := if s.dt > 0 then s.dt - 1 else s.dt,
    st := if s.st > 0 then s.st - 1 else s.st }

/-- `Emu::fetch`: big-endian combine of the two bytes at `pc`, then `pc += 2`. -/
def Emu.fetch (s : Emu) : Except Fault (Nat × Emu) := do
  let higher_byte ← s.ramRead s.pc
  let lower_byte ← s.ramRead (s.pc + 1)
  .ok (((higher_byte <<< 8) ||| lower_byte), { s with pc := s.pc + 2 })

/-- Decode field `digit1 = (op & 0xF000) >> 12`. -/
def digit1 (op : Nat) : Nat := (op &&& 0xF000) >>> 12

/-- Decode field `digit2 = (op & 0x0F00) >> 8`. -/
def digit2 (op : Nat) : Nat := (op &&& 0x0F00) >>> 8

/-- Decode field `digit3 = (op & 0x00F0) >> 4`. -/
def digit3 (op : Nat) : Nat := (op &&& 0x00F0) >>> 4

/-- Decode field `digit4 = op & 0x000F`. -/
def digit4 (op : Nat) : Nat := op &&& 0x000F

/-- Builds the opcode word with the four given nibbles. -/
def mkOp (a b c d : Nat) : Nat := a * 4096 + b * 256 + c * 16 + d

/-- Inner loop of the draw instruction over `x_line in 0..c`:
mask out bit `0b1000_0000 >> x_line`, and when it is set, XOR the screen
pixel at the wrapped coordinates, or-ing the pre-toggle pixel into the
collision accumulator.  The accumulator pair is (screen, flipped). -/
def drawCols (x_coord y : Nat) (pixels : Nat) :
    Nat → ((Nat → Bool) × Bool) → ((Nat → Bool) × Bool)
  | 0, acc => acc
  | c + 1, acc =>
    let acc' := drawCols x_coord y pixels c acc
    if pixels &&& (0b10000000 >>> c) ≠ 0 then
      let x := (x_coord + c) % SCREEN_WIDTH
      let idx := x + SCREEN_WIDTH * (y % SCREEN_HEIGHT)
      (upd acc'.1 idx (!acc'.1 idx), acc'.2 || acc'.1 idx)
    else acc'

/-- Outer loop of the draw instruction over `y_line in 0..r`: read the row
byte at `I + y_line` (a checked RAM read) and run the 8-column inner loop. -/
def drawRows (s : Emu) (x_coord y_coord : Nat) :
    Nat → Except Fault ((Nat → Bool) × Bool)
  | 0 => .ok (s.screen, false)
  | r + 1 => do
    let acc ← drawRows s x_coord y_coord r
    let pixels ← s.ramRead (s.i_reg + r)
    .ok (drawCols x_coord (y_coord + r) pixels 8 acc)

/-- Loop of `FX55` over `index in 0..=x` (here the count `k` is `x + 1`):
`ram[i + index] = v_reg[index]`, each write bounds-checked. -/
def storeRegs (i : Nat) : Nat → Emu → Except Fault Emu
  | 0, s => .ok s
  | k + 1, s => do
    let s' ← storeRegs i k s
    s'.ramWrite (i + k) (s'.v_reg k)

/-- Loop of `FX65` over `index in 0..=x`: `v_reg[index] = ram[i + index]`. -/
def loadRegs (i : Nat) : Nat → Emu → Except Fault Emu
  | 0, s => .ok s
  | k + 1, s => do
    let s' ← loadRegs i k s
    let b ← s'.ramRead (i + k)
    .ok { s' with v_reg := upd s'.v_reg k b }

/-- The `FX33` float BCD, modelled exactly.  The source converts `Vx` to
`f32` and computes `(vx / d).floor()` and `vx % d` with float division and
`fmod`.  For an integer `vx ≤ 255` the conversion to `f32` is exact, and the
division result is the true quotient rounded to the nearest 24-bit
significand: with the shift `t` chosen so that `2^23 ≤ vx * 2^t / d < 2^24`,
that rounding is `(2 * (vx * 2^t) + d) / (2 * d)` (round half up — a
representable tie `vx * 2^(t+1) / d` an odd integer is impossible here, since
`d ∈ {10, 100}` and `t ≥ 2` force that quotient, when integral, to be even,
so half-up agrees with the IEEE tie-to-even).  `fmod` of representable values
is exact, and `.floor() as u8` is `Nat` division by the scale. -/
def fl32Mantissa (num den : Nat) : Option (Nat × Nat) :=
  ((List.range 64).find? fun t =>
      decide (2 ^ 23 * den ≤ num * 2 ^ t) && decide (num * 2 ^ t < 2 ^ 24 * den)).map
    fun t => ((2 * (num * 2 ^ t) + den) / (2 * den), t)

/-- Value of the f32 division `vx / den` followed by `% modulus` (an exact
fmod) and `.floor()`, as a natural number.  `modulus = 0` means no fmod step
(the hundreds digit takes a plain floor). -/
def floatDivModFloor (vx den modulus : Nat) : Nat :=
  match fl32Mantissa vx den with
  | none => 0
  | some (m, t) =>
    if modulus = 0 then m >>> t
    else (m % (modulus * 2 ^ t)) >>> t

/-- The three BCD digits computed by the `FX33` arm: `(vx/100.0).floor()`,
`((vx/10.0) % 10.0).floor()` and `vx % 10.0` (exact fmod of integers). -/
def bcdDigits (vx : Nat) : Nat × Nat × Nat :=
  (floatDivModFloor vx 100 0, floatDivModFloor vx 10 10, vx % 10)

/-- `Emu::execute`, one arm per Rust match arm, in source order.  `rand`
supplies the byte that `rand::random` returns in the `CXNN` arm. -/
def Emu.execute (rand : Nat) (s : Emu) (op : Nat) : Except Fault Emu :=
  if (digit1 op) = 0 ∧ (digit2 op) = 0 ∧ (digit3 op) = 0 ∧ (digit4 op) = 0 then
    .ok s
  else if (digit1 op) = 0 ∧ (digit2 op) = 0 ∧ (digit3 op) = 0xE ∧ (digit4 op) = 0 then
    .ok { s with screen := fun _ => false }
  else if (digit1 op) = 0 ∧ (digit2 op) = 0 ∧ (digit3 op) = 0xE ∧ (digit4 op) = 0xE then do
    let (ret_addr, s') ← s.pop
    .ok { s' with pc := ret_addr }
  else if (digit1 op) = 1 then
    .ok { s with pc := op &&& 0xFFF }
  else if (digit1 op) = 2 then do
    let s' ← s.push s.pc
    .ok { s' with pc := op &&& 0xFFF }
  else if (digit1 op) = 3 then
    .ok (if s.v_reg (digit2 op) = op &&& 0xFF then { s with pc := s.pc + 2 } else s)
  else if (digit1 op) = 4 then
    .ok (if s.v_reg (digit2 op) ≠ op &&& 0xFF then { s with pc := s.pc + 2 } else s)
  else if (digit1 op) = 5 ∧ (digit4 op) = 0 then
    .ok (if s.v_reg (digit2 op) = s.v_reg (digit3 op) then { s with pc := s.pc + 2 } else s)
  else if (digit1 op) = 6 then
    .ok { s with v_reg := upd s.v_reg (digit2 op) (op &&& 0xFF) }
  else if (digit1 op) = 7 then
    .ok { s with v_reg := upd s.v_reg (digit2 op) ((s.v_reg (digit2 op) + (op &&& 0xFF)) % 256) }
  else if (digit1 op) = 8 ∧ (digit4 op) = 0 then
    .ok { s with v_reg := upd s.v_reg (digit2 op) (s.v_reg (digit3 op)) }
  else if (digit1 op) = 8 ∧ (digit4 op) = 1 then
    .ok { s with v_reg := upd s.v_reg (digit2 op) (s.v_reg (digit2 op) ||| s.v_reg (digit3 op)) }
  else if (digit1 op) = 8 ∧ (digit4 op) = 2 then
    .ok { s with v_reg := upd s.v_reg (digit2 op) (s.v_reg (digit2 op) &&& s.v_reg (digit3 op)) }
  else if (digit1 op) = 8 ∧ (digit4 op) = 3 then
    .ok { s with v_reg := upd s.v_reg (digit2 op) (s.v_reg (digit2 op) ^^^ s.v_reg (digit3 op)) }
  else if (digit1 op) = 8 ∧ (digit4 op) = 4 then
    let new_vx := (s.v_reg (digit2 op) + s.v_reg (digit3 op)) % 256
    let new_vf : Nat := if 256 ≤ s.v_reg (digit2 op) + s.v_reg (digit3 op) then 1 else 0
    .ok { s with v_reg := upd (upd s.v_reg (digit2 op) new_vx) 0xF new_vf }
  else if (digit1 op) = 8 ∧ (digit4 op) = 5 then
    let new_vx := (s.v_reg (digit2 op) + 256 - s.v_reg (digit3 op) % 256) % 256
    let new_vf : Nat := if s.v_reg (digit2 op) < s.v_reg (digit3 op) then 0 else 1
    .ok { s with v_reg := upd (upd s.v_reg (digit2 op) new_vx) 0xF new_vf }
  else if (digit1 op) = 8 ∧ (digit4 op) = 6 then
    let lsb := s.v_reg (digit2 op) &&& 1
    .ok { s with v_reg := upd (upd s.v_reg (digit2 op) (s.v_reg (digit2 op) >>> 1)) 0xF lsb }
  else if (digit1 op) = 8 ∧ (digit4 op) = 7 then
    let new_vx := (s.v_reg (digit3 op) + 256 - s.v_reg (digit2 op) % 256) % 256
    let new_vf : Nat := if s.v_reg (digit3 op) < s.v_reg (digit2 op) then 0 else 1
    .ok { s with v_reg := upd (upd s.v_reg (digit2 op) new_vx) 0xF new_vf }
  else if (digit1 op) = 8 ∧ (digit4 op) = 0xE then
    let msb := (s.v_reg (digit2 op) >>> 7) &&& 1
    .ok { s with v_reg := upd (upd s.v_reg (digit2 op) ((s.v_reg (digit2 op) <<< 1) % 256)) 0xF msb }
  else if (digit1 op) = 9 ∧ (digit4 op) = 0 then
    .ok (if s.v_reg (digit2 op) ≠ s.v_reg (digit3 op) then { s with pc := s.pc + 2 } else s)
  else if (digit1 op) = 0xA then
    .ok { s with i_reg := op &&& 0xFFF }
  else if (digit1 op) = 0xB then
    .ok { s with pc := s.v_reg 0 + (op &&& 0xFFF) }
  else if (digit1 op) = 0xC then
    .ok { s with v_reg := upd s.v_reg (digit2 op) ((rand % 256) &&& (op &&& 0xFF)) }
  else if (digit1 op) = 0xD then do
    let res ← drawRows s (s.v_reg (digit2 op)) (s.v_reg (digit3 op)) (digit4 op)
    .ok { s with screen := res.1,
                 v_reg := upd s.v_reg 0xF (if res.2 then 1 else 0) }
  else if (digit1 op) = 0xE ∧ (digit3 op) = 9 ∧ (digit4 op) = 0xE then do
    let key ← s.keyRead (s.v_reg (digit2 op))
    .ok (if key then { s with pc := s.pc + 2 } else s)
  else if (digit1 op) = 0xE ∧ (digit3 op) = 0xA ∧ (digit4 op) = 1 then do
    let key ← s.keyRead (s.v_reg (digit2 op))
    .ok (if !key then { s with pc := s.pc + 2 } else s)
  else if (digit1 op) = 0xF ∧ (digit3 op) = 0 ∧ (digit4 op) = 7 then
    .ok { s with v_reg := upd s.v_reg (digit2 op) s.dt }
  else if (digit1 op) = 0xF ∧ (digit3 op) = 0 ∧ (digit4 op) = 0xA then
    .ok (match (List.range NUM_KEYS).find? (fun i => s.keys i) with
      | some i => { s with v_reg := upd s.v_reg (digit2 op) i }
      | none => { s with pc := s.pc - 2 })
  else if (digit1 op) = 0xF ∧ (digit3 op) = 1 ∧ (digit4 op) = 5 then
    .ok { s with dt := s.v_reg (digit2 op) }
  else if (digit1 op) = 0xF ∧ (digit3 op) = 1 ∧ (digit4 op) = 8 then
    .ok { s with st := s.v_reg (digit2 op) }
  else if (digit1 op) = 0xF ∧ (digit3 op) = 1 ∧ (digit4 op) = 0xE then
    .ok { s with i_reg := (s.i_reg + s.v_reg (digit2 op)) % 65536 }
  else if (digit1 op) = 0xF ∧ (digit3 op) = 2 ∧ (digit4 op) = 9 then
    .ok { s with i_reg := s.v_reg (digit2 op) * 5 }
  else if (digit1 op) = 0xF ∧ (digit3 op) = 3 ∧ (digit4 op) = 3 then do
    let digits := bcdDigits (s.v_reg (digit2 op))
    let s1 ← s.ramWrite s.i_reg digits.1
    let s2 ← s1.ramWrite (s.i_reg + 1) digits.2.1
    s2.ramWrite (s.i_reg + 2) digits.2.2
  else if (digit1 op) = 0xF ∧ (digit3 op) = 5 ∧ (digit4 op) = 5 then
    storeRegs s.i_reg ((digit2 op) + 1) s
  else if (digit1 op) = 0xF ∧ (digit3 op) = 6 ∧ (digit4 op) = 5 then
    loadRegs s.i_reg ((digit2 op) + 1) s
  else
    .error (.badOpcode op)

/-- `Emu::tick`: fetch, then decode and execute. -/
def Emu.tick (rand : Nat) (s : Emu) : Except Fault Emu := do
  let (op, s') ← s.fetch
  s'.execute rand op

/-- Iterated full steps, for the blocking-by-repetition property. -/
def tickIter (rand : Nat) : Nat → Emu → Except Fault Emu
  | 0, s => .ok s
  | k + 1, s => do
    let s' ← Emu.tick rand s
    tickIter rand k s'

theorem maskShift (x m k : Nat) : (x &&& (m <<< k)) >>> k = (x >>> k) &&& m := by
  apply Nat.eq_of_testBit_eq
  intro j
  simp [Nat.testBit_shiftRight, Nat.testBit_land, Nat.testBit_shiftLeft]

theorem digit1_eq (op : Nat) : digit1 op = op / 4096 % 16 := by
  have h : (0xF000 : Nat) = 15 <<< 12 := by decide
  rw [digit1, h, maskShift, Nat.shiftRight_eq_div_pow]
  have h15 : (15 : Nat) = 2 ^ 4 - 1 := by decide
  rw [h15, Nat.and_pow_two_sub_one_eq_mod]

theorem digit2_eq (op : Nat) : digit2 op = op / 256 % 16 := by
  have h : (0x0F00 : Nat) = 15 <<< 8 := by decide
  rw [digit2, h, maskShift, Nat.shiftRight_eq_div_pow]
  have h15 : (15 : Nat) = 2 ^ 4 - 1 := by decide
  rw [h15, Nat.and_pow_two_sub_one_eq_mod]

theorem digit3_eq (op : Nat) : digit3 op = op / 16 % 16 := by
  have h : (0x00F0 : Nat) = 15 <<< 4 := by decide
  rw [digit3, h, maskShift, Nat.shiftRight_eq_div_pow]
  have h15 : (15 : Nat) = 2 ^ 4 - 1 := by decide
  rw [h15, Nat.and_pow_two_sub_one_eq_mod]

theorem digit4_eq (op : Nat) : digit4 op = op % 16 := by
  have h15 : (0x000F : Nat) = 2 ^ 4 - 1 := by decide
  rw [digit4, h15, Nat.and_pow_two_sub_one_eq_mod]

theorem digit1_mkOp (a b c d : Nat) (ha : a < 16) (hb : b < 16) (hc : c < 16)
    (hd : d < 16) : digit1 (mkOp a b c d) = a := by
  rw [digit1_eq, mkOp]
  omega

theorem digit2_mkOp (a b c d : Nat) (_ha : a < 16) (hb : b < 16) (hc : c < 16)
    (hd : d < 16) : digit2 (mkOp a b c d) = b := by
  rw [digit2_eq, mkOp]
  omega

theorem digit3_mkOp (a b c d : Nat) (_ha : a < 16) (_hb : b < 16) (hc : c < 16)
    (hd : d < 16) : digit3 (mkOp a b c d) = c := by
  rw [digit3_eq, mkOp]
  omega

theorem digit4_mkOp (a b c d : Nat) (_ha : a < 16) (_hb : b < 16) (_hc : c < 16)
    (hd : d < 16) : digit4 (mkOp a b c d) = d := by
  rw [digit4_eq, mkOp]
  omega

/-- Observation of a V register after a possibly faulting step. -/
def vAfter (r : Except Fault Emu) (i : Nat) : Option Nat :=
  r.toOption.map fun t => t.v_reg i

/-- Observation of the program counter after a possibly faulting step. -/
def pcAfter (r : Except Fault Emu) : Option Nat :=
  r.toOption.map fun t => t.pc

/-- Observation of a RAM byte after a possibly faulting step. -/
def ramAfter (r : Except Fault Emu) (i : Nat) : Option Nat :=
  r.toOption.map fun t => t.ram i

/-- Observation of the index register after a possibly faulting step. -/
def iAfter (r : Except Fault Emu) : Option Nat :=
  r.toOption.map fun t => t.i_reg

/-- Observation of a framebuffer pixel after a possibly faulting step. -/
def pixelAfter (r : Except Fault Emu) (i : Nat) : Option Bool :=
  r.toOption.map fun t => t.screen i

/-- C7: `tick_timers` decrements each positive timer, floors both at zero
(in particular a timer at zero stays zero across arbitrarily many calls), and
changes no other machine state. -/
theorem C7_timer_floor (s : Emu) :
    Emu.tick_timers s = { s with dt := s.dt - 1, st := s.st - 1 } ∧
    ∀ k : Nat, Emu.tick_timers^[k] s = { s with dt := s.dt - k, st := s.st - k } := by
  have hstep : ∀ t : Emu, Emu.tick_timers t = { t with dt := t.dt - 1, st := t.st - 1 } := by
    intro t
    simp only [Emu.tick_timers]
    congr 1 <;> split <;> omega
  refine ⟨hstep s, ?_⟩
  intro k
  induction k with
  | zero => simp
  | succ k ih =>
    rw [Function.iterate_succ_apply', ih, hstep]
    congr 1

/-- Concrete machine for the carry examples: `V0 = 0xFF`, `V1 = 0x01`. -/
def addCarryEx : Emu := { Emu.new with v_reg := upd (upd Emu.new.v_reg 0 0xFF) 1 0x01 }

/-- C2 (amended): executing `8xy4` assigns `Vx ← (Vx + Vy) mod 256` and then
assigns `VF ← 1` if the 8-bit addition overflowed, else `0`; consequently the
final `Vx` is the wrapped sum whenever `x ≠ 0xF`, the final `VF` is always
the carry flag, and the concrete examples hold: `V0 = 0xFF, V1 = 0x01` gives
`V0 = 0x00, VF = 1`, and the non-overflowing `V1 + V1` leaves `VF = 0`. -/
theorem C2_add_with_carry (rand : Nat) (s : Emu) (x y : Nat) (hx : x < 16) (hy : y < 16) :
    Emu.execute rand s (mkOp 8 x y 4) = .ok { s with v_reg := upd (upd s.v_reg x ((s.v_reg x + s.v_reg y) % 256)) 0xF (if 256 ≤ s.v_reg x + s.v_reg y then 1 else 0) } ∧
    (x ≠ 15 → vAfter (Emu.execute rand s (mkOp 8 x y 4)) x = some ((s.v_reg x + s.v_reg y) % 256)) ∧
    vAfter (Emu.execute rand s (mkOp 8 x y 4)) 15 = some (if 256 ≤ s.v_reg x + s.v_reg y then 1 else 0) ∧
    vAfter (Emu.execute 0 addCarryEx (mkOp 8 0 1 4)) 0 = some 0x00 ∧
    vAfter (Emu.execute 0 addCarryEx (mkOp 8 0 1 4)) 15 = some 1 ∧
    vAfter (Emu.execute 0 addCarryEx (mkOp 8 1 1 4)) 1 = some 2 ∧
    vAfter (Emu.execute 0 addCarryEx (mkOp 8 1 1 4)) 15 = some 0 := by
  have h1 := digit1_mkOp 8 x y 4 (by decide) hx hy (by decide)
  have h2 := digit2_mkOp 8 x y 4 (by decide) hx hy (by decide)
  have h3 := digit3_mkOp 8 x y 4 (by decide) hx hy (by decide)
  have h4 := digit4_mkOp 8 x y 4 (by decide) hx hy (by decide)
  have hmain : Emu.execute rand s (mkOp 8 x y 4) = .ok { s with v_reg := upd (upd s.v_reg x ((s.v_reg x + s.v_reg y) % 256)) 0xF (if 256 ≤ s.v_reg x + s.v_reg y then 1 else 0) } := by
    simp only [Emu.execute, h1, h2, h3, h4]
    norm_num
  refine ⟨hmain, ?_, ?_, by decide, by decide, by decide, by decide⟩
  · intro hne
    rw [hmain]
    simp [vAfter, Except.toOption, upd, hne]
  · rw [hmain]
    simp [vAfter, Except.toOption, upd]

/-- Witness for C2 at `x = 0`, `y = 1` on the concrete carry example. -/
theorem C2_add_with_carry_witness :
    (0 < 16 ∧ 1 < 16) ∧
    Emu.execute 0 addCarryEx (mkOp 8 0 1 4) = .ok { addCarryEx with v_reg := upd (upd addCarryEx.v_reg 0 ((addCarryEx.v_reg 0 + addCarryEx.v_reg 1) % 256)) 0xF (if 256 ≤ addCarryEx.v_reg 0 + addCarryEx.v_reg 1 then 1 else 0) } :=
  ⟨⟨by decide, by decide⟩, (C2_add_with_carry 0 addCarryEx 0 1 (by decide) (by decide)).1⟩

/-- Concrete machine refuting the unrestricted C2: `VF = 4`, `V0 = 1`. -/
def addCarryCe : Emu := { Emu.new with v_reg := upd (upd Emu.new.v_reg 15 4) 0 1 }

/-- C2 counterexample: with `x = 0xF`, `y = 0`, `VF = 4` and `V0 = 1`,
executing `8F04` leaves `VF = 0` (the carry flag), not the wrapped sum
`(4 + 1) mod 256 = 5` that the claim asserts for `Vx`. -/
theorem C2_add_with_carry_counterexample :
    vAfter (Emu.execute 0 addCarryCe (mkOp 8 15 0 4)) 15 = some 0 ∧
    (addCarryCe.v_reg 15 + addCarryCe.v_reg 0) % 256 = 5 ∧
    vAfter (Emu.execute 0 addCarryCe (mkOp 8 15 0 4)) 15 ≠ some ((addCarryCe.v_reg 15 + addCarryCe.v_reg 0) % 256) := by
  refine ⟨by decide, by decide, by decide⟩

/-- Concrete machine for the shift example: `V2 = 0b00000011`. -/
def shiftEx : Emu := { Emu.new with v_reg := upd Emu.new.v_reg 2 0b00000011 }

/-- C3 (amended): executing `8x_6` assigns `Vx ← Vx >> 1` and then assigns
`VF ←` the pre-shift least-significant bit, so for `x ≠ 0xF` the final `Vx`
is the shifted value and the final `VF` (for every `x`, including `0xF`) is
the captured lsb; for `x = 0xF` the flag write overwrites the shifted value.
Symmetrically `8x_E` assigns `Vx ← (Vx << 1) mod 256` and then `VF ←` the
pre-shift most-significant bit.  The concrete example holds:
`Vx = 0b00000011` right-shifts to `Vx = 0b00000001` with `VF = 1`. -/
theorem C3_shift_flags (rand : Nat) (s : Emu) (x y : Nat) (hx : x < 16) (hy : y < 16) :
    Emu.execute rand s (mkOp 8 x y 6) = .ok { s with v_reg := upd (upd s.v_reg x (s.v_reg x >>> 1)) 0xF (s.v_reg x &&& 1) } ∧
    Emu.execute rand s (mkOp 8 x y 0xE) = .ok { s with v_reg := upd (upd s.v_reg x ((s.v_reg x <<< 1) % 256)) 0xF ((s.v_reg x >>> 7) &&& 1) } ∧
    (x ≠ 15 → vAfter (Emu.execute rand s (mkOp 8 x y 6)) x = some (s.v_reg x >>> 1)) ∧
    vAfter (Emu.execute rand s (mkOp 8 x y 6)) 15 = some (s.v_reg x &&& 1) ∧
    (x ≠ 15 → vAfter (Emu.execute rand s (mkOp 8 x y 0xE)) x = some ((s.v_reg x <<< 1) % 256)) ∧
    vAfter (Emu.execute rand s (mkOp 8 x y 0xE)) 15 = some ((s.v_reg x >>> 7) &&& 1) ∧
    vAfter (Emu.execute 0 shiftEx (mkOp 8 2 0 6)) 2 = some 0b00000001 ∧
    vAfter (Emu.execute 0 shiftEx (mkOp 8 2 0 6)) 15 = some 1 := by
  have h1 := digit1_mkOp 8 x y 6 (by decide) hx hy (by decide)
  have h2 := digit2_mkOp 8 x y 6 (by decide) hx hy (by decide)
  have h3 := digit3_mkOp 8 x y 6 (by decide) hx hy (by decide)
  have h4 := digit4_mkOp 8 x y 6 (by decide) hx hy (by decide)
  have g1 := digit1_mkOp 8 x y 0xE (by decide) hx hy (by decide)
  have g2 := digit2_mkOp 8 x y 0xE (by decide) hx hy (by decide)
  have g3 := digit3_mkOp 8 x y 0xE (by decide) hx hy (by decide)
  have g4 := digit4_mkOp 8 x y 0xE (by decide) hx hy (by decide)
  have hmain : Emu.execute rand s (mkOp 8 x y 6) = .ok { s with v_reg := upd (upd s.v_reg x (s.v_reg x >>> 1)) 0xF (s.v_reg x &&& 1) } := by
    simp only [Emu.execute, h1, h2, h3, h4]
    norm_num
  have gmain : Emu.execute rand s (mkOp 8 x y 0xE) = .ok { s with v_reg := upd (upd s.v_reg x ((s.v_reg x <<< 1) % 256)) 0xF ((s.v_reg x >>> 7) &&& 1) } := by
    simp only [Emu.execute, g1, g2, g3, g4]
    norm_num
  refine ⟨hmain, gmain, ?_, ?_, ?_, ?_, by decide, by decide⟩
  · intro hne
    rw [hmain]
    simp [vAfter, Except.toOption, upd, hne]
  · rw [hmain]
    simp [vAfter, Except.toOption, upd]
  · intro hne
    rw [gmain]
    simp [vAfter, Except.toOption, upd, hne]
  · rw [gmain]
    simp [vAfter, Except.toOption, upd]

/-- Witness for C3 at `x = 2`, `y = 0` on the concrete shift example. -/
theorem C3_shift_flags_witness :
    (2 < 16 ∧ 0 < 16) ∧
    Emu.execute 0 shiftEx (mkOp 8 2 0 6) = .ok { shiftEx with v_reg := upd (upd shiftEx.v_reg 2 (shiftEx.v_reg 2 >>> 1)) 0xF (shiftEx.v_reg 2 &&& 1) } :=
  ⟨⟨by decide, by decide⟩, (C3_shift_flags 0 shiftEx 2 0 (by decide) (by decide)).1⟩

/-- Concrete machine refuting the unrestricted C3: `VF = 2`. -/
def shiftCe : Emu := { Emu.new with v_reg := upd Emu.new.v_reg 15 2 }

/-- C3 counterexample: with `x = 0xF` and `VF = 2`, executing `8F06` leaves
`VF = 0` (the captured lsb), not the shifted value `2 >> 1 = 1` that the
claim asserts for `Vx` when `x = 0xF`. -/
theorem C3_shift_flags_counterexample :
    vAfter (Emu.execute 0 shiftCe (mkOp 8 15 0 6)) 15 = some 0 ∧
    shiftCe.v_reg 15 >>> 1 = 1 ∧
    vAfter (Emu.execute 0 shiftCe (mkOp 8 15 0 6)) 15 ≠ some (shiftCe.v_reg 15 >>> 1) := by
  refine ⟨by decide, by decide, by decide⟩

/-- The rows of the instruction table: an opcode word matches some arm of
the `execute` dispatch exactly when its nibbles satisfy one of these
patterns. -/
def opcodeMatches (op : Nat) : Prop :=
  (digit1 op = 0 ∧ digit2 op = 0 ∧ digit3 op = 0 ∧ digit4 op = 0) ∨
  (digit1 op = 0 ∧ digit2 op = 0 ∧ digit3 op = 0xE ∧ digit4 op = 0) ∨
  (digit1 op = 0 ∧ digit2 op = 0 ∧ digit3 op = 0xE ∧ digit4 op = 0xE) ∨
  digit1 op = 1 ∨ digit1 op = 2 ∨ digit1 op = 3 ∨ digit1 op = 4 ∨
  (digit1 op = 5 ∧ digit4 op = 0) ∨ digit1 op = 6 ∨ digit1 op = 7 ∨
  (digit1 op = 8 ∧ digit4 op = 0) ∨ (digit1 op = 8 ∧ digit4 op = 1) ∨
  (digit1 op = 8 ∧ digit4 op = 2) ∨ (digit1 op = 8 ∧ digit4 op = 3) ∨
  (digit1 op = 8 ∧ digit4 op = 4) ∨ (digit1 op = 8 ∧ digit4 op = 5) ∨
  (digit1 op = 8 ∧ digit4 op = 6) ∨ (digit1 op = 8 ∧ digit4 op = 7) ∨
  (digit1 op = 8 ∧ digit4 op = 0xE) ∨ (digit1 op = 9 ∧ digit4 op = 0) ∨
  digit1 op = 0xA ∨ digit1 op = 0xB ∨ digit1 op = 0xC ∨ digit1 op = 0xD ∨
  (digit1 op = 0xE ∧ digit3 op = 9 ∧ digit4 op = 0xE) ∨
  (digit1 op = 0xE ∧ digit3 op = 0xA ∧ digit4 op = 1) ∨
  (digit1 op = 0xF ∧ digit3 op = 0 ∧ digit4 op = 7) ∨
  (digit1 op = 0xF ∧ digit3 op = 0 ∧ digit4 op = 0xA) ∨
  (digit1 op = 0xF ∧ digit3 op = 1 ∧ digit4 op = 5) ∨
  (digit1 op = 0xF ∧ digit3 op = 1 ∧ digit4 op = 8) ∨
  (digit1 op = 0xF ∧ digit3 op = 1 ∧ digit4 op = 0xE) ∨
  (digit1 op = 0xF ∧ digit3 op = 2 ∧ digit4 op = 9) ∨
  (digit1 op = 0xF ∧ digit3 op = 3 ∧ digit4 op = 3) ∨
  (digit1 op = 0xF ∧ digit3 op = 5 ∧ digit4 op = 5) ∨
  (digit1 op = 0xF ∧ digit3 op = 6 ∧ digit4 op = 5)

set_option synthInstance.maxHeartbeats 2000000 in
set_option synthInstance.maxSize 2048 in
instance opcodeMatches.decidable (op : Nat) : Decidable (opcodeMatches op) := by
  unfold opcodeMatches
  infer_instance

theorem execute_badOpcode (rand : Nat) (s : Emu) (op : Nat) (h : ¬ opcodeMatches op) :
    Emu.execute rand s op = .error (.badOpcode op) := by
  unfold opcodeMatches at h
  simp only [not_or] at h
  obtain ⟨h1, h2, h3, h4, h5, h6, h7, h8, h9, h10, h11, h12, h13, h14, h15, h16, h17, h18, h19, h20, h21, h22, h23, h24, h25, h26, h27, h28, h29, h30, h31, h32, h33, h34, h35⟩ := h
  unfold Emu.execute
  rw [if_neg h1, if_neg h2, if_neg h3, if_neg h4, if_neg h5, if_neg h6, if_neg h7, if_neg h8, if_neg h9, if_neg h10, if_neg h11, if_neg h12, if_neg h13, if_neg h14, if_neg h15, if_neg h16, if_neg h17, if_neg h18, if_neg h19, if_neg h20, if_neg h21, if_neg h22, if_neg h23, if_neg h24, if_neg h25, if_neg h26, if_neg h27, if_neg h28, if_neg h29, if_neg h30, if_neg h31, if_neg h32, if_neg h33, if_neg h34, if_neg h35]

/-- C5: the three fatal-fault conditions each produce a distinct,
identifiable error outcome: a `CALL` executed with the stack depth already
at 16 yields `stackOverflow`, a `RET` (`00EE`) executed at depth 0 yields
`stackUnderflow`, and any opcode word matching no row of the instruction
table yields `badOpcode` carrying the offending word; the three fault values
are pairwise distinct and no post-state is produced. -/
theorem C5_fatal_faults (rand : Nat) (s : Emu) :
    (∀ a b c, a < 16 → b < 16 → c < 16 → s.sp = STACK_SIZE → Emu.execute rand s (mkOp 2 a b c) = .error .stackOverflow) ∧
    (s.sp = 0 → Emu.execute rand s (mkOp 0 0 0xE 0xE) = .error .stackUnderflow) ∧
    (∀ op, ¬ opcodeMatches op → Emu.execute rand s op = .error (.badOpcode op)) ∧
    (Fault.stackOverflow ≠ Fault.stackUnderflow ∧ ∀ op, Fault.badOpcode op ≠ Fault.stackOverflow ∧ Fault.badOpcode op ≠ Fault.stackUnderflow) := by
  refine ⟨?_, ?_, fun op h => execute_badOpcode rand s op h, by decide, fun op => ⟨by simp, by simp⟩⟩
  · intro a b c ha hb hc hsp
    have h1 := digit1_mkOp 2 a b c (by decide) ha hb hc
    have h2 := digit2_mkOp 2 a b c (by decide) ha hb hc
    have h3 := digit3_mkOp 2 a b c (by decide) ha hb hc
    have h4 := digit4_mkOp 2 a b c (by decide) ha hb hc
    simp only [Emu.execute, h1, h2, h3, h4]
    norm_num [Emu.push, hsp, STACK_SIZE, Bind.bind, Except.bind]
  · intro hsp
    have e1 : digit1 0x00EE = 0 := by decide
    have e2 : digit2 0x00EE = 0 := by decide
    have e3 : digit3 0x00EE = 0xE := by decide
    have e4 : digit4 0x00EE = 0xE := by decide
    have hop : mkOp 0 0 0xE 0xE = 0x00EE := by decide
    rw [hop]
    simp only [Emu.execute, e1, e2, e3, e4]
    norm_num [Emu.pop, hsp, Bind.bind, Except.bind]

/-- Concrete machine with a full stack. -/
def fullStackEx : Emu := { Emu.new with sp := 16 }

/-- Witness for C5: concrete overflow at full depth, underflow at depth
zero, and the unmatched opcode `0x5001`. -/
theorem C5_fatal_faults_witness :
    (fullStackEx.sp = STACK_SIZE ∧ Emu.new.sp = 0 ∧ ¬ opcodeMatches 0x5001) ∧
    Emu.execute 0 fullStackEx (mkOp 2 1 2 3) = .error .stackOverflow ∧
    Emu.execute 0 Emu.new (mkOp 0 0 0xE 0xE) = .error .stackUnderflow ∧
    Emu.execute 0 Emu.new 0x5001 = .error (.badOpcode 0x5001) :=
  ⟨⟨by decide, by decide, by decide⟩,
    (C5_fatal_faults 0 fullStackEx).1 1 2 3 (by decide) (by decide) (by decide) (by decide),
    (C5_fatal_faults 0 Emu.new).2.1 (by decide),
    (C5_fatal_faults 0 Emu.new).2.2.1 0x5001 (by decide)⟩

/-- Concrete machine whose `V0` holds the out-of-range key index 16. -/
def keyOobEx : Emu := { Emu.new with v_reg := upd Emu.new.v_reg 0 16 }

/-- C10: `EX9E` and `EXA1` index the 16-entry key array with the full 8-bit
`Vx`; under `Vx ≤ 0xF` the lookup is in bounds and the instruction merely
skips (or not), never the error branch, while a state with `Vx = 16`
reaches the out-of-bounds `keyIndex` fault on both instructions. -/
theorem C10_key_skip_bounds (rand : Nat) (s : Emu) (x : Nat) (hx : x < 16)
    (hvx : s.v_reg x < 16) :
    Emu.execute rand s (mkOp 0xE x 9 0xE) = .ok (if s.keys (s.v_reg x) = true then { s with pc := s.pc + 2 } else s) ∧
    Emu.execute rand s (mkOp 0xE x 0xA 1) = .ok (if s.keys (s.v_reg x) = true then s else { s with pc := s.pc + 2 }) ∧
    Emu.execute 0 keyOobEx (mkOp 0xE 0 9 0xE) = .error .keyIndex ∧
    Emu.execute 0 keyOobEx (mkOp 0xE 0 0xA 1) = .error .keyIndex ∧
    keyOobEx.v_reg 0 = 16 := by
  have h1 := digit1_mkOp 0xE x 9 0xE (by decide) hx (by decide) (by decide)
  have h2 := digit2_mkOp 0xE x 9 0xE (by decide) hx (by decide) (by decide)
  have h3 := digit3_mkOp 0xE x 9 0xE (by decide) hx (by decide) (by decide)
  have h4 := digit4_mkOp 0xE x 9 0xE (by decide) hx (by decide) (by decide)
  have g1 := digit1_mkOp 0xE x 0xA 1 (by decide) hx (by decide) (by decide)
  have g2 := digit2_mkOp 0xE x 0xA 1 (by decide) hx (by decide) (by decide)
  have g3 := digit3_mkOp 0xE x 0xA 1 (by decide) hx (by decide) (by decide)
  have g4 := digit4_mkOp 0xE x 0xA 1 (by decide) hx (by decide) (by decide)
  refine ⟨?_, ?_, by rfl, by rfl, by decide⟩
  · simp only [Emu.execute, h1, h2, h3, h4]
    norm_num [Emu.keyRead, NUM_KEYS, hvx, Bind.bind, Except.bind]
  · simp only [Emu.execute, g1, g2, g3, g4]
    norm_num [Emu.keyRead, NUM_KEYS, hvx, Bind.bind, Except.bind]
    cases hk : s.keys (s.v_reg x) <;> simp [hk]

/-- Witness for C10 at `x = 0` on the fresh machine (whose `V0 = 0 ≤ 0xF`). -/
theorem C10_key_skip_bounds_witness :
    (0 < 16 ∧ Emu.new.v_reg 0 < 16) ∧
    Emu.execute 0 Emu.new (mkOp 0xE 0 9 0xE) = .ok (if Emu.new.keys (Emu.new.v_reg 0) = true then { Emu.new with pc := Emu.new.pc + 2 } else Emu.new) :=
  ⟨⟨by decide, by decide⟩, (C10_key_skip_bounds 0 Emu.new 0 (by decide) (by decide)).1⟩

set_option maxRecDepth 4096 in
theorem bcdDigits_correct : ∀ vx : Nat, vx < 256 → bcdDigits vx = (vx / 100, vx / 10 % 10, vx % 10) := by decide

/-- Concrete machine for the BCD example: `V3 = 234`, `I = 0x300`. -/
def bcdEx : Emu := { Emu.new with v_reg := upd Emu.new.v_reg 3 234, i_reg := 0x300 }

/-- Concrete machine for the zero BCD example: `V3 = 0`, `I = 0x300`. -/
def bcdZeroEx : Emu := { Emu.new with i_reg := 0x300 }

/-- C6: for every `Vx` in `0..=255`, `FX33` (whose float arithmetic is exact
on this domain) stores the hundreds digit at `I`, the tens digit at `I + 1`
and the ones digit at `I + 2`, and `Vx = 234` stores `2, 3, 4` while
`Vx = 0` stores `0, 0, 0`. -/
theorem C6_bcd (rand : Nat) (s : Emu) (x : Nat) (hx : x < 16)
    (hvx : s.v_reg x < 256) (hi : s.i_reg + 2 < RAM_SIZE) :
    Emu.execute rand s (mkOp 0xF x 3 3) = .ok { s with ram := upd (upd (upd s.ram s.i_reg (s.v_reg x / 100)) (s.i_reg + 1) (s.v_reg x / 10 % 10)) (s.i_reg + 2) (s.v_reg x % 10) } ∧
    ramAfter (Emu.execute 0 bcdEx (mkOp 0xF 3 3 3)) 0x300 = some 2 ∧
    ramAfter (Emu.execute 0 bcdEx (mkOp 0xF 3 3 3)) 0x301 = some 3 ∧
    ramAfter (Emu.execute 0 bcdEx (mkOp 0xF 3 3 3)) 0x302 = some 4 ∧
    ramAfter (Emu.execute 0 bcdZeroEx (mkOp 0xF 3 3 3)) 0x300 = some 0 ∧
    ramAfter (Emu.execute 0 bcdZeroEx (mkOp 0xF 3 3 3)) 0x301 = some 0 ∧
    ramAfter (Emu.execute 0 bcdZeroEx (mkOp 0xF 3 3 3)) 0x302 = some 0 := by
  have h1 := digit1_mkOp 0xF x 3 3 (by decide) hx (by decide) (by decide)
  have h2 := digit2_mkOp 0xF x 3 3 (by decide) hx (by decide) (by decide)
  have h3 := digit3_mkOp 0xF x 3 3 (by decide) hx (by decide) (by decide)
  have h4 := digit4_mkOp 0xF x 3 3 (by decide) hx (by decide) (by decide)
  have hb := bcdDigits_correct (s.v_reg x) hvx
  have ha : s.i_reg < RAM_SIZE := by omega
  have ha1 : s.i_reg + 1 < RAM_SIZE := by omega
  refine ⟨?_, by decide, by decide, by decide, by decide, by decide, by decide⟩
  simp only [Emu.execute, h1, h2, h3, h4, hb]
  norm_num [Emu.ramWrite, ha, ha1, hi, Bind.bind, Except.bind]

/-- Witness for C6 at `x = 3` on the concrete `V3 = 234`, `I = 0x300`
machine. -/
theorem C6_bcd_witness :
    (3 < 16 ∧ bcdEx.v_reg 3 < 256 ∧ bcdEx.i_reg + 2 < RAM_SIZE) ∧
    Emu.execute 0 bcdEx (mkOp 0xF 3 3 3) = .ok { bcdEx with ram := upd (upd (upd bcdEx.ram bcdEx.i_reg (bcdEx.v_reg 3 / 100)) (bcdEx.i_reg + 1) (bcdEx.v_reg 3 / 10 % 10)) (bcdEx.i_reg + 2) (bcdEx.v_reg 3 % 10) } :=
  ⟨⟨by decide, by decide, by decide⟩, (C6_bcd 0 bcdEx 3 (by decide) (by decide) (by decide)).1⟩

/-- C8: for every machine state and byte sequence no longer than
`4096 - 512`, `load` copies the bytes into RAM starting at offset 512,
leaves every byte below offset 512 unchanged — in particular the 80-byte
font table of a freshly constructed machine — and changes no other machine
state (the post-state differs from `s` only in `ram`). -/
theorem C8_load_preserves_font (s : Emu) (data : List Nat)
    (h : data.length ≤ RAM_SIZE - START_ADDR) :
    Emu.load s data = .ok { s with ram := copyInto s.ram START_ADDR data } ∧
    (∀ i, i < START_ADDR → copyInto s.ram START_ADDR data i = s.ram i) ∧
    (∀ j, j < data.length → copyInto s.ram START_ADDR data (START_ADDR + j) = data.getD j 0) ∧
    (∀ i, i < FONTSET_SIZE → copyInto Emu.new.ram START_ADDR data i = FONTSET.getD i 0) := by
  have hcond : START_ADDR + data.length ≤ RAM_SIZE := by
    simp only [RAM_SIZE, START_ADDR] at h ⊢
    omega
  refine ⟨by rw [Emu.load, if_pos hcond], ?_, ?_, ?_⟩
  · intro i hi
    simp only [START_ADDR] at hi
    rw [copyInto]
    rw [if_neg (by simp only [START_ADDR]; omega)]
  · intro j hj
    have hidx : START_ADDR + j - START_ADDR = j := by omega
    rw [copyInto]
    rw [if_pos (by simp only [START_ADDR]; omega)]
    rw [hidx]
  · intro i hi
    simp only [FONTSET_SIZE] at hi
    have hlen : FONTSET.length = 80 := by rfl
    rw [copyInto]
    rw [if_neg (by simp only [START_ADDR]; omega)]
    simp only [Emu.new]
    rw [copyInto]
    rw [if_pos (by omega)]
    simp

/-- Witness for C8 with the three-byte program `[1, 2, 3]` on the fresh
machine. -/
theorem C8_load_preserves_font_witness :
    ([1, 2, 3].length ≤ RAM_SIZE - START_ADDR) ∧
    Emu.load Emu.new [1, 2, 3] = .ok { Emu.new with ram := copyInto Emu.new.ram START_ADDR [1, 2, 3] } :=
  ⟨by decide, (C8_load_preserves_font Emu.new [1, 2, 3] (by decide)).1⟩

theorem storeRegs_ok (s : Emu) (i : Nat) : ∀ k, i + k ≤ RAM_SIZE →
    storeRegs i k s = .ok { s with ram := fun j => if i ≤ j ∧ j < i + k then s.v_reg (j - i) else s.ram j } := by
  intro k
  induction k with
  | zero =>
    intro _
    have hram : (fun j => if i ≤ j ∧ j < i + 0 then s.v_reg (j - i) else s.ram j) = s.ram := by
      funext j
      rw [if_neg (by omega)]
    rw [hram]
    rfl
  | succ k ih =>
    intro h
    have hk := ih (by omega)
    simp only [storeRegs, hk, Bind.bind, Except.bind]
    rw [Emu.ramWrite]
    rw [if_pos (by omega)]
    have hram : upd (fun j => if i ≤ j ∧ j < i + k then s.v_reg (j - i) else s.ram j) (i + k) (s.v_reg k) = fun j => if i ≤ j ∧ j < i + (k + 1) then s.v_reg (j - i) else s.ram j := by
      funext j
      by_cases hj : j = i + k
      · subst hj
        rw [upd_same, if_pos (by omega)]
        congr 1
        omega
      · rw [upd_ne _ _ _ _ hj]
        by_cases hle : i ≤ j ∧ j < i + k
        · rw [if_pos hle, if_pos (by omega)]
        · rw [if_neg hle, if_neg (by omega)]
    rw [hram]

theorem loadRegs_ok (s : Emu) (i : Nat) : ∀ k, i + k ≤ RAM_SIZE →
    loadRegs i k s = .ok { s with v_reg := fun j => if j < k then s.ram (i + j) else s.v_reg j } := by
  intro k
  induction k with
  | zero =>
    intro _
    have hv : (fun j => if j < 0 then s.ram (i + j) else s.v_reg j) = s.v_reg := by
      funext j
      rw [if_neg (by omega)]
    rw [hv]
    rfl
  | succ k ih =>
    intro h
    have hk := ih (by omega)
    simp only [loadRegs, hk, Bind.bind, Except.bind]
    rw [Emu.ramRead]
    rw [if_pos (by omega)]
    show Except.ok _ = _
    have hv : upd (fun j => if j < k then s.ram (i + j) else s.v_reg j) k (s.ram (i + k)) = fun j => if j < k + 1 then s.ram (i + j) else s.v_reg j := by
      funext j
      by_cases hj : j = k
      · subst hj
        rw [upd_same, if_pos (by omega)]
      · rw [upd_ne _ _ _ _ hj]
        by_cases hlt : j < k
        · rw [if_pos hlt, if_pos (by omega)]
        · rw [if_neg hlt, if_neg (by omega)]
    rw [hv]

/-- C9: `FX55` writes exactly the `x + 1` bytes at addresses `I..I+x`
(reading `V0..Vx`), leaves all other memory unchanged, and leaves the index
register `I` unchanged (no post-increment); `FX65` loads `V0..Vx` from
`I..I+x`, leaves the other registers and all memory unchanged, and also
leaves `I` unchanged. -/
theorem C9_store_load_frame (rand : Nat) (s : Emu) (x : Nat) (hx : x < 16)
    (h : s.i_reg + x < RAM_SIZE) :
    Emu.execute rand s (mkOp 0xF x 5 5) = .ok { s with ram := fun j => if s.i_reg ≤ j ∧ j < s.i_reg + (x + 1) then s.v_reg (j - s.i_reg) else s.ram j } ∧
    Emu.execute rand s (mkOp 0xF x 6 5) = .ok { s with v_reg := fun j => if j < x + 1 then s.ram (s.i_reg + j) else s.v_reg j } ∧
    iAfter (Emu.execute rand s (mkOp 0xF x 5 5)) = some s.i_reg ∧
    iAfter (Emu.execute rand s (mkOp 0xF x 6 5)) = some s.i_reg := by
  have h1 := digit1_mkOp 0xF x 5 5 (by decide) hx (by decide) (by decide)
  have h2 := digit2_mkOp 0xF x 5 5 (by decide) hx (by decide) (by decide)
  have h3 := digit3_mkOp 0xF x 5 5 (by decide) hx (by decide) (by decide)
  have h4 := digit4_mkOp 0xF x 5 5 (by decide) hx (by decide) (by decide)
  have g1 := digit1_mkOp 0xF x 6 5 (by decide) hx (by decide) (by decide)
  have g2 := digit2_mkOp 0xF x 6 5 (by decide) hx (by decide) (by decide)
  have g3 := digit3_mkOp 0xF x 6 5 (by decide) hx (by decide) (by decide)
  have g4 := digit4_mkOp 0xF x 6 5 (by decide) hx (by decide) (by decide)
  have hst : Emu.execute rand s (mkOp 0xF x 5 5) = .ok { s with ram := fun j => if s.i_reg ≤ j ∧ j < s.i_reg + (x + 1) then s.v_reg (j - s.i_reg) else s.ram j } := by
    simp only [Emu.execute, h1, h2, h3, h4]
    norm_num
    exact storeRegs_ok s s.i_reg (x + 1) (by omega)
  have hld : Emu.execute rand s (mkOp 0xF x 6 5) = .ok { s with v_reg := fun j => if j < x + 1 then s.ram (s.i_reg + j) else s.v_reg j } := by
    simp only [Emu.execute, g1, g2, g3, g4]
    norm_num
    exact loadRegs_ok s s.i_reg (x + 1) (by omega)
  refine ⟨hst, hld, ?_, ?_⟩
  · rw [hst]
    simp [iAfter, Except.toOption]
  · rw [hld]
    simp [iAfter, Except.toOption]

/-- Witness for C9 at `x = 2` on a machine with `I = 0x300` and
`V0, V1, V2 = 7, 8, 9`. -/
def storeEx : Emu := { Emu.new with i_reg := 0x300, v_reg := upd (upd (upd Emu.new.v_reg 0 7) 1 8) 2 9 }

theorem C9_store_load_frame_witness :
    (2 < 16 ∧ storeEx.i_reg + 2 < RAM_SIZE) ∧
    iAfter (Emu.execute 0 storeEx (mkOp 0xF 2 5 5)) = some storeEx.i_reg :=
  ⟨⟨by decide, by decide⟩, (C9_store_load_frame 0 storeEx 2 (by decide) (by decide)).2.2.1⟩

theorem shiftLeft_or_eq_add (a b : Nat) (hb : b < 256) : (a <<< 8) ||| b = a * 256 + b := by
  apply Nat.eq_of_testBit_eq
  intro j
  have hrhs : a * 256 + b = 2 ^ 8 * a + b := by rw [show (2:Nat) ^ 8 = 256 from rfl]; ring
  rw [hrhs, Nat.testBit_mul_pow_two_add a (by omega) j]
  by_cases hj : j < 8
  · simp [Nat.testBit_or, Nat.testBit_shiftLeft, hj]
  · have hb8 : b.testBit j = false := by
      apply Nat.testBit_eq_false_of_lt
      calc b < 256 := hb
      _ = 2 ^ 8 := by decide
      _ ≤ 2 ^ j := Nat.pow_le_pow_right (by decide) (by omega)
    simp [Nat.testBit_or, Nat.testBit_shiftLeft, hj, hb8]
    exact fun _ => by omega

theorem find?_range'_some (p : Nat → Bool) : ∀ n a k, a ≤ k → k < a + n → p k = true →
    (∀ j, a ≤ j → j < k → p j = false) → (List.range' a n).find? p = some k := by
  intro n
  induction n with
  | zero =>
    intro a k h1 h2
    omega
  | succ n ih =>
    intro a k h1 h2 hp hmin
    rw [List.range'_succ]
    by_cases hak : a = k
    · subst hak
      simp [List.find?, hp]
    · have hpa : p a = false := hmin a (by omega) (by omega)
      simp only [List.find?, hpa]
      exact ih (a + 1) k (by omega) (by omega) hp (fun j hj1 hj2 => hmin j (by omega) hj2)

theorem find?_range_some (p : Nat → Bool) (n k : Nat) (hk : k < n) (hp : p k = true)
    (hmin : ∀ j, j < k → p j = false) : (List.range n).find? p = some k := by
  rw [List.range_eq_range']
  exact find?_range'_some p n 0 k (by omega) (by omega) hp (fun j _ hj => hmin j hj)

theorem find?_range_none (p : Nat → Bool) (n : Nat) (h : ∀ j, j < n → p j = false) :
    (List.range n).find? p = none := by
  rw [List.find?_eq_none]
  intro x hx
  rw [List.mem_range] at hx
  simp [h x hx]

/-- C4: when the program counter addresses an `FX0A` instruction, a full
step (`tick` = fetch + execute) with no key pressed returns the state
completely unchanged — so arbitrarily many repeated steps are the identity —
while with at least one key pressed the step sets `Vx` to the smallest
pressed key index (keys scanned in order `0..16`) and leaves the program
counter advanced by 2 past the instruction. -/
theorem C4_key_wait (rand : Nat) (s : Emu) (x : Nat) (hx : x < 16)
    (hpc : s.pc + 1 < RAM_SIZE) (hhi : s.ram s.pc = 0xF0 + x)
    (hlo : s.ram (s.pc + 1) = 0x0A) :
    ((∀ i, i < NUM_KEYS → s.keys i = false) →
      Emu.tick rand s = .ok s ∧ ∀ m, tickIter rand m s = .ok s) ∧
    (∀ k, k < NUM_KEYS → s.keys k = true → (∀ j, j < k → s.keys j = false) →
      Emu.tick rand s = .ok { s with pc := s.pc + 2, v_reg := upd s.v_reg x k }) := by
  have hop : (s.ram s.pc <<< 8) ||| s.ram (s.pc + 1) = mkOp 0xF x 0 0xA := by
    rw [hhi, hlo, shiftLeft_or_eq_add _ _ (by decide), mkOp]
    ring
  have hfetch : s.fetch = .ok (mkOp 0xF x 0 0xA, { s with pc := s.pc + 2 }) := by
    rw [Emu.fetch]
    simp only [Emu.ramRead, RAM_SIZE]
    rw [if_pos (by simp only [RAM_SIZE] at hpc; omega), if_pos (by simp only [RAM_SIZE] at hpc; omega)]
    simp only [Bind.bind, Except.bind, hop]
  have h1 := digit1_mkOp 0xF x 0 0xA (by decide) hx (by decide) (by decide)
  have h2 := digit2_mkOp 0xF x 0 0xA (by decide) hx (by decide) (by decide)
  have h3 := digit3_mkOp 0xF x 0 0xA (by decide) hx (by decide) (by decide)
  have h4 := digit4_mkOp 0xF x 0 0xA (by decide) hx (by decide) (by decide)
  constructor
  · intro hnone
    have hfind : (List.range NUM_KEYS).find? (fun i => s.keys i) = none :=
      find?_range_none _ _ (fun j hj => hnone j hj)
    have hstep : Emu.tick rand s = .ok s := by
      rw [Emu.tick]
      simp only [hfetch, Bind.bind, Except.bind]
      simp only [Emu.execute, h1, h2, h3, h4]
      norm_num [hfind]
    refine ⟨hstep, ?_⟩
    intro m
    induction m with
    | zero => rfl
    | succ m ih =>
      rw [tickIter]
      simp only [hstep, Bind.bind, Except.bind]
      exact ih
  · intro k hk hkey hmin
    have hfind : (List.range NUM_KEYS).find? (fun i => s.keys i) = some k :=
      find?_range_some _ _ _ hk hkey (fun j hj => hmin j hj)
    rw [Emu.tick]
    simp only [hfetch, Bind.bind, Except.bind]
    simp only [Emu.execute, h1, h2, h3, h4]
    norm_num [hfind]

/-- Concrete machine whose program is a single `F50A` at the program
counter, with no key pressed. -/
def keyWaitEx : Emu := { Emu.new with ram := upd (upd Emu.new.ram 0x200 0xF5) 0x201 0x0A }

/-- Witness for C4 at `x = 5` on the concrete `F50A` machine: with no key
pressed the step returns the state unchanged. -/
theorem C4_key_wait_witness :
    (5 < 16 ∧ keyWaitEx.pc + 1 < RAM_SIZE ∧ keyWaitEx.ram keyWaitEx.pc = 0xF0 + 5 ∧ keyWaitEx.ram (keyWaitEx.pc + 1) = 0x0A ∧ (∀ i, i < NUM_KEYS → keyWaitEx.keys i = false)) ∧
    Emu.tick 0 keyWaitEx = .ok keyWaitEx :=
  ⟨⟨by decide, by decide, by decide, by decide, by decide⟩,
    ((C4_key_wait 0 keyWaitEx 5 (by decide) (by decide) (by decide) (by decide)).1 (by decide)).1⟩

/-- Spec-side description (refinement target) of one sprite row, following
the spec's words: bit `col` (most significant first) of the row byte, when
set, targets the flattened pixel `((x0+col) mod width) + width * (y mod
height)`.  `colCovers x0 y pixels c i` holds when some set bit among the
first `c` columns targets index `i`. -/
def colCovers (x_coord y pixels c : Nat) (i : Nat) : Bool :=
  (List.range c).any fun col => pixels.testBit (7 - col) && (i == (x_coord + col) % SCREEN_WIDTH + SCREEN_WIDTH * (y % SCREEN_HEIGHT))

/-- Spec-side: some set bit among the first `c` columns of the row targets a
pixel that is set in `scr` (a collision). -/
def colCollides (scr : Nat → Bool) (x_coord y pixels c : Nat) : Bool :=
  (List.range c).any fun col => pixels.testBit (7 - col) && scr ((x_coord + col) % SCREEN_WIDTH + SCREEN_WIDTH * (y % SCREEN_HEIGHT))

theorem mask_testBit (p c : Nat) (hc : c < 8) : (p &&& (0b10000000 >>> c) ≠ 0) ↔ p.testBit (7 - c) = true := by
  have hm : (0b10000000 >>> c) = 2 ^ (7 - c) := by
    rw [Nat.shiftRight_eq_div_pow, show (0b10000000 : Nat) = 2 ^ 7 from rfl]
    exact Nat.pow_div (by omega) (by norm_num)
  rw [hm, Nat.and_two_pow]
  cases hb : p.testBit (7 - c) <;> simp [hb]

theorem drawCols_eq (x0 y p : Nat) : ∀ c, c ≤ 8 → ∀ (scr : Nat → Bool) (fl : Bool),
    drawCols x0 y p c (scr, fl) =
      (fun i => Bool.xor (scr i) (colCovers x0 y p c i), fl || colCollides scr x0 y p c) := by
  intro c
  induction c with
  | zero =>
    intro _ scr fl
    simp [drawCols, colCovers, colCollides]
  | succ c ih =>
    intro hc scr fl
    have hih := ih (by omega) scr fl
    rw [drawCols]
    simp only [hih]
    have hcov_succ : ∀ i, colCovers x0 y p (c + 1) i = (colCovers x0 y p c i || (p.testBit (7 - c) && (i == (x0 + c) % SCREEN_WIDTH + SCREEN_WIDTH * (y % SCREEN_HEIGHT)))) := by
      intro i
      simp [colCovers, List.range_succ, List.any_append]
    have hcol_succ : colCollides scr x0 y p (c + 1) = (colCollides scr x0 y p c || (p.testBit (7 - c) && scr ((x0 + c) % SCREEN_WIDTH + SCREEN_WIDTH * (y % SCREEN_HEIGHT)))) := by
      simp [colCollides, List.range_succ, List.any_append]
    by_cases hbit : p &&& (0b10000000 >>> c) ≠ 0
    · have hb : p.testBit (7 - c) = true := (mask_testBit p c (by omega)).mp hbit
      rw [if_pos hbit]
      have hfresh : colCovers x0 y p c ((x0 + c) % SCREEN_WIDTH + SCREEN_WIDTH * (y % SCREEN_HEIGHT)) = false := by
        simp only [colCovers, List.any_eq_false]
        intro col hcol
        rw [List.mem_range] at hcol
        simp only [Bool.and_eq_true, beq_iff_eq, not_and]
        intro _
        simp only [SCREEN_WIDTH, SCREEN_HEIGHT]
        omega
      simp only [Prod.mk.injEq]
      refine ⟨?_, ?_⟩
      · funext i
        by_cases hi : i = (x0 + c) % SCREEN_WIDTH + SCREEN_WIDTH * (y % SCREEN_HEIGHT)
        · subst hi
          rw [upd_same, hcov_succ]
          simp [hfresh, hb]
        · rw [upd_ne _ _ _ _ hi, hcov_succ]
          simp [hi]
      · rw [hcol_succ]
        simp [hfresh, hb, Bool.or_assoc]
    · have hb : p.testBit (7 - c) = false := by
        have h2 := mt (mask_testBit p c (by omega)).mpr hbit
        simpa using h2
      rw [if_neg hbit]
      simp only [Prod.mk.injEq]
      refine ⟨?_, ?_⟩
      · funext i
        rw [hcov_succ]
        simp [hb]
      · rw [hcol_succ]
        simp [hb]

/-- Spec-side: the whole sprite of `n` rows read at `I` covers flat pixel
index `i` when some row below `n` and some set bit of that row's byte map to
`i` under the wraparound coordinates. -/
def spriteCovers (s : Emu) (x0 y0 n : Nat) (i : Nat) : Bool :=
  (List.range n).any fun row => colCovers x0 (y0 + row) (s.ram (s.i_reg + row)) 8 i

/-- Spec-side: some set sprite bit targets an already-set pixel of the
pre-draw screen. -/
def spriteCollides (s : Emu) (x0 y0 n : Nat) : Bool :=
  (List.range n).any fun row => colCollides s.screen x0 (y0 + row) (s.ram (s.i_reg + row)) 8

theorem spriteCovers_row_fresh (s : Emu) (x0 y0 k j : Nat) (hk : k ≤ 31)
    (hj : ∃ a, j = a % SCREEN_WIDTH + SCREEN_WIDTH * ((y0 + k) % SCREEN_HEIGHT)) :
    spriteCovers s x0 y0 k j = false := by
  obtain ⟨a, hja⟩ := hj
  subst hja
  unfold spriteCovers colCovers
  rw [List.any_eq_false]
  intro row hrow
  rw [List.mem_range] at hrow
  rw [Bool.not_eq_true, List.any_eq_false]
  intro col hcol
  rw [List.mem_range] at hcol
  simp only [Bool.and_eq_true, beq_iff_eq, not_and, SCREEN_WIDTH, SCREEN_HEIGHT]
  intro _
  omega

theorem colCollides_scr (scr1 scr2 : Nat → Bool) (x0 y p c : Nat)
    (h : ∀ j, scr1 ((x0 + j) % SCREEN_WIDTH + SCREEN_WIDTH * (y % SCREEN_HEIGHT)) = scr2 ((x0 + j) % SCREEN_WIDTH + SCREEN_WIDTH * (y % SCREEN_HEIGHT))) :
    colCollides scr1 x0 y p c = colCollides scr2 x0 y p c := by
  unfold colCollides
  congr 1
  funext col
  rw [h col]

theorem drawRows_eq (s : Emu) (x0 y0 : Nat) : ∀ n, n ≤ 16 → s.i_reg + n ≤ RAM_SIZE →
    drawRows s x0 y0 n = .ok (fun i => Bool.xor (s.screen i) (spriteCovers s x0 y0 n i), spriteCollides s x0 y0 n) := by
  intro n
  induction n with
  | zero =>
    intro _ _
    simp [drawRows, spriteCovers, spriteCollides]
  | succ k ih =>
    intro hn hram
    have ihk := ih (by omega) (by omega)
    have hread : s.ramRead (s.i_reg + k) = .ok (s.ram (s.i_reg + k)) := by
      rw [Emu.ramRead, if_pos (by simp only [RAM_SIZE] at hram ⊢; omega)]
    rw [drawRows]
    simp only [ihk, hread, Bind.bind, Except.bind]
    rw [drawCols_eq _ _ _ 8 (le_refl 8)]
    have hcov_succ : ∀ i, spriteCovers s x0 y0 (k + 1) i = (spriteCovers s x0 y0 k i || colCovers x0 (y0 + k) (s.ram (s.i_reg + k)) 8 i) := by
      intro i
      simp [spriteCovers, List.range_succ, List.any_append]
    have hcol_succ : spriteCollides s x0 y0 (k + 1) = (spriteCollides s x0 y0 k || colCollides s.screen x0 (y0 + k) (s.ram (s.i_reg + k)) 8) := by
      simp [spriteCollides, List.range_succ, List.any_append]
    have hrowshape : ∀ i, colCovers x0 (y0 + k) (s.ram (s.i_reg + k)) 8 i = true → spriteCovers s x0 y0 k i = false := by
      intro i hi
      simp only [colCovers, List.any_eq_true, List.mem_range, Bool.and_eq_true, beq_iff_eq] at hi
      obtain ⟨col, hcol, hbit, hieq⟩ := hi
      exact spriteCovers_row_fresh s x0 y0 k i (by omega) ⟨x0 + col, hieq⟩
    have hscr : colCollides (fun i => Bool.xor (s.screen i) (spriteCovers s x0 y0 k i)) x0 (y0 + k) (s.ram (s.i_reg + k)) 8 = colCollides s.screen x0 (y0 + k) (s.ram (s.i_reg + k)) 8 := by
      apply colCollides_scr
      intro j
      have hfresh : spriteCovers s x0 y0 k ((x0 + j) % SCREEN_WIDTH + SCREEN_WIDTH * ((y0 + k) % SCREEN_HEIGHT)) = false :=
        spriteCovers_row_fresh s x0 y0 k _ (by omega) ⟨x0 + j, rfl⟩
      show Bool.xor (s.screen ((x0 + j) % SCREEN_WIDTH + SCREEN_WIDTH * ((y0 + k) % SCREEN_HEIGHT))) (spriteCovers s x0 y0 k ((x0 + j) % SCREEN_WIDTH + SCREEN_WIDTH * ((y0 + k) % SCREEN_HEIGHT))) = s.screen ((x0 + j) % SCREEN_WIDTH + SCREEN_WIDTH * ((y0 + k) % SCREEN_HEIGHT))
      rw [hfresh, Bool.xor_false]
    rw [hscr]
    simp only [Except.ok.injEq, Prod.mk.injEq]
    refine ⟨?_, ?_⟩
    · funext i
      rw [hcov_succ]
      by_cases hrc : colCovers x0 (y0 + k) (s.ram (s.i_reg + k)) 8 i = true
      · simp [hrc, hrowshape i hrc]
      · have hrf : colCovers x0 (y0 + k) (s.ram (s.i_reg + k)) 8 i = false := by
          simpa using hrc
        simp [hrf]
    · rw [hcol_succ]

/-- Spec-side post-state of a draw, following the spec's description: every
pixel covered by the sprite is XORed into the framebuffer (flattened index
`x + 64*y`), and `VF` becomes 1 exactly when some XOR turned an already-set
pixel off. -/
def drawSpec (s : Emu) (x0 y0 n : Nat) : Emu :=
  { s with screen := fun i => Bool.xor (s.screen i) (spriteCovers s x0 y0 n i),
           v_reg := upd s.v_reg 0xF (if spriteCollides s x0 y0 n then 1 else 0) }

/-- Concrete machine for the double-draw example: single-row sprite `0x81`
at `I = 0x300`, drawn at `(V0, V1) = (3, 5)`. -/
def drawEx : Emu := { Emu.new with i_reg := 0x300, ram := upd Emu.new.ram 0x300 0x81, v_reg := upd (upd Emu.new.v_reg 0 3) 1 5 }

/-- Concrete machine for the wraparound example: single-row sprite `0xC0`
drawn at column `V0 = 63`. -/
def wrapEx : Emu := { Emu.new with i_reg := 0x300, ram := upd Emu.new.ram 0x300 0xC0, v_reg := upd Emu.new.v_reg 0 63 }

/-- C1: executing `DXYN` produces exactly the spec-described draw: for rows
`0..n` the byte at `I+row` is read and each of its set bits XORs the pixel
at `((Vx+col) mod 64, (Vy+row) mod 32)` (flattened `x + 64*y`), with `VF`
set to 1 iff some XOR turned a set pixel off, and nothing else changed.  In
particular, drawing the single-row sprite `0x81` twice at `(3, 5)` sets then
clears columns 3 and 10 of row 5 with `VF = 0` then `VF = 1`, and drawing
sprite `0xC0` at column 63 lights columns 63 and 0. -/
theorem C1_draw (rand : Nat) (s : Emu) (x y n : Nat) (hx : x < 16) (hy : y < 16)
    (hn : n < 16) (hram : s.i_reg + n ≤ RAM_SIZE) :
    Emu.execute rand s (mkOp 0xD x y n) = .ok (drawSpec s (s.v_reg x) (s.v_reg y) n) ∧
    pixelAfter (Emu.execute 0 drawEx (mkOp 0xD 0 1 1)) (3 + 64 * 5) = some true ∧
    pixelAfter (Emu.execute 0 drawEx (mkOp 0xD 0 1 1)) (10 + 64 * 5) = some true ∧
    vAfter (Emu.execute 0 drawEx (mkOp 0xD 0 1 1)) 15 = some 0 ∧
    pixelAfter ((Emu.execute 0 drawEx (mkOp 0xD 0 1 1)).bind (fun t => Emu.execute 0 t (mkOp 0xD 0 1 1))) (3 + 64 * 5) = some false ∧
    pixelAfter ((Emu.execute 0 drawEx (mkOp 0xD 0 1 1)).bind (fun t => Emu.execute 0 t (mkOp 0xD 0 1 1))) (10 + 64 * 5) = some false ∧
    vAfter ((Emu.execute 0 drawEx (mkOp 0xD 0 1 1)).bind (fun t => Emu.execute 0 t (mkOp 0xD 0 1 1))) 15 = some 1 ∧
    pixelAfter (Emu.execute 0 wrapEx (mkOp 0xD 0 1 1)) 63 = some true ∧
    pixelAfter (Emu.execute 0 wrapEx (mkOp 0xD 0 1 1)) 0 = some true ∧
    pixelAfter (Emu.execute 0 wrapEx (mkOp 0xD 0 1 1)) 1 = some false := by
  have h1 := digit1_mkOp 0xD x y n (by decide) hx hy hn
  have h2 := digit2_mkOp 0xD x y n (by decide) hx hy hn
  have h3 := digit3_mkOp 0xD x y n (by decide) hx hy hn
  have h4 := digit4_mkOp 0xD x y n (by decide) hx hy hn
  have hrows := drawRows_eq s (s.v_reg x) (s.v_reg y) n (by omega) hram
  refine ⟨?_, by decide, by decide, by decide, by decide, by decide, by decide, by decide, by decide, by decide⟩
  simp only [Emu.execute, h1, h2, h3, h4]
  norm_num [hrows, Bind.bind, Except.bind, drawSpec]

/-- Witness for C1 on the concrete sprite machine: drawing one row of
`0x81` at `(3, 5)` gives exactly the spec-described post-state. -/
theorem C1_draw_witness :
    (0 < 16 ∧ 1 < 16 ∧ drawEx.i_reg + 1 ≤ RAM_SIZE) ∧
    Emu.execute 0 drawEx (mkOp 0xD 0 1 1) = .ok (drawSpec drawEx (drawEx.v_reg 0) (drawEx.v_reg 1) 1) :=
  ⟨⟨by decide, by decide, by decide⟩,
    (C1_draw 0 drawEx 0 1 1 (by decide) (by decide) (by decide) (by decide)).1⟩

end Chip8
